import Mathlib

/-!
Shallow embedding of the `file` navigation model of mathaou/gum
(src/file/file.go) and of the CSV line splitter `splitAtDelimiter`
(src/unnamed/part_000), together with proofs about the claimed
properties of the navigation state machine, the directory sort order,
and the splitter.

Go `int` values are modelled as `Int` (the cursor and the window bounds
can go negative in the source), Go strings as Lean `String` (for paths
and names) or `List Char` (for the byte-level splitter loop).
-/

namespace Gum

/-- One directory entry as the model uses it: `Name()`, `IsDir()`, plus the
size and permission-mode metadata that only rendering consumes. -/
structure DirEntry where
  name : String
  isDir : Bool
  size : Nat
  mode : String
deriving Repr, DecidableEq

/-- `const marginBottom = 5` (src/file/file.go:28). -/
def marginBottom : Int := 5

/-- The mutable `model` struct of src/file/file.go:30-52 (style fields
dropped: they never change and are read only by `View`).  The three
history stacks are lists with the top at the head. -/
structure Model where
  quitting : Bool
  path : String
  files : List DirEntry
  selected : Int
  selectedStack : List Int
  min : Int
  max : Int
  maxStack : List Int
  minStack : List Int
  height : Int
  autoHeight : Bool
deriving Repr, DecidableEq

/-- The key presses `Update` distinguishes (src/file/file.go:86-145):
`g`, `G`, `j`/`down`, `k`/`up`, `ctrl+c`/`q`, `backspace`/`h`/`left`,
`l`/`right`, and `enter` (the latter two differ on plain files). -/
inductive Key where
  | g
  | shiftG
  | down
  | up
  | quit
  | back
  | right
  | enter
deriving Repr, DecidableEq

/-- The messages `Update` switches on: a finished directory read, a
window resize, or a key press. -/
inductive Msg where
  | readDirMsg (entries : List DirEntry)
  | windowSize (height : Int)
  | key (k : Key)
deriving Repr, DecidableEq

/-- The commands `Update` can return: `tea.Quit` or `readDir path`. -/
inductive Cmd where
  | quit
  | readDir (path : String)
deriving Repr, DecidableEq

/-- Modelled from the spec: the source calls `filepath.Dir` (Go standard
library, outside this repository) to "set `currentPath` to its parent
path"; modelled as dropping the final `/`-separated component.  No claim
depends on its exact value. -/
def parentPath (p : String) : String :=
  let parts := p.splitOn "/"
  if parts.length ≤ 1 then "." else String.intercalate "/" parts.dropLast

/-- Modelled from the spec: the source calls `filepath.Join` (Go standard
library, outside this repository) for "`currentPath` joined with the
entry name"; modelled as inserting a single `/`, which agrees with
`filepath.Join` on already-clean paths. -/
def joinPath (p n : String) : String :=
  if p = "" then n else p ++ "/" ++ n

/-- Zero value of `os.DirEntry` indexing; `m.files[m.selected]` in Go
panics when out of range, all theorems below that inspect the entry
under the cursor hypothesise an in-range cursor. -/
def defaultEntry : DirEntry := ⟨"", false, 0, ""⟩

/-- The entry under the cursor, `m.files[m.selected]`. -/
def entryAt (m : Model) : DirEntry :=
  m.files.getD m.selected.toNat defaultEntry

/-- The `"l", "right", "enter"` case of `Update` (src/file/file.go:127-144):
empty list breaks; a non-directory entry either terminates with the
joined path (`enter`) or breaks; a directory entry pushes the current
view (src/file/file.go:150-154, `pushView`), resets the view and issues
a read of the joined path. -/
def openEntry (m : Model) (isEnter : Bool) : Model × Option Cmd :=
  if m.files.length = 0 then (m, none)
  else
    let f := entryAt m
    if f.isDir = false then
      if isEnter then
        ({ m with path := joinPath m.path f.name, quitting := true }, some Cmd.quit)
      else (m, none)
    else
      let p1 := joinPath m.path f.name
      ({ m with path := p1,
                selectedStack := m.selected :: m.selectedStack,
                minStack := m.min :: m.minStack,
                maxStack := m.max :: m.maxStack,
                selected := 0, min := 0, max := m.height - 1 },
       some (Cmd.readDir p1))

/-- `model.Update` (src/file/file.go:76-148).  The `backspace` case pops
the three history stacks (`popView`, src/file/file.go:156-158); the
stack package itself (internal/stack) is not part of the sources and is
modelled from the spec as a LIFO stack. -/
def update (m : Model) (msg : Msg) : Model × Option Cmd :=
  match msg with
  | Msg.readDirMsg entries => ({ m with files := entries }, none)
  | Msg.windowSize h =>
      let m1 := if m.autoHeight then { m with height := h - marginBottom } else m
      ({ m1 with max := m1.height }, none)
  | Msg.key k =>
      match k with
      | Key.g => ({ m with selected := 0, min := 0, max := m.height - 1 }, none)
      | Key.shiftG =>
          ({ m with selected := (m.files.length : Int) - 1,
                    min := (m.files.length : Int) - m.height,
                    max := (m.files.length : Int) - 1 }, none)
      | Key.down =>
          let s1 := m.selected + 1
          let s2 := if s1 ≥ (m.files.length : Int) then (m.files.length : Int) - 1 else s1
          if s2 > m.max then
            ({ m with selected := s2, min := m.min + 1, max := m.max + 1 }, none)
          else
            ({ m with selected := s2 }, none)
      | Key.up =>
          let s1 := m.selected - 1
          let s2 := if s1 < 0 then 0 else s1
          if s2 < m.min then
            ({ m with selected := s2, min := m.min - 1, max := m.max - 1 }, none)
          else
            ({ m with selected := s2 }, none)
      | Key.quit => ({ m with path := "", quitting := true }, some Cmd.quit)
      | Key.back =>
          let p1 := parentPath m.path
          if m.selectedStack.length > 0 then
            ({ m with path := p1,
                      selected := m.selectedStack.headD 0,
                      min := m.minStack.headD 0,
                      max := m.maxStack.headD 0,
                      selectedStack := m.selectedStack.tail,
                      minStack := m.minStack.tail,
                      maxStack := m.maxStack.tail }, some (Cmd.readDir p1))
          else
            ({ m with path := p1, selected := 0, min := 0, max := m.height - 1 },
             some (Cmd.readDir p1))
      | Key.right => openEntry m false
      | Key.enter => openEntry m true

/-- The ViewState invariant of the spec (section 3): `min ≤ cursor ≤ max`,
`0 ≤ min`, `cursor = 0` on an empty entry list, and
`cursor < len(entries)` with `max ≤ len(entries) - 1` on a non-empty one. -/
def viewInv (m : Model) : Prop :=
  m.min ≤ m.selected ∧ m.selected ≤ m.max ∧ 0 ≤ m.min ∧
    (m.files.length = 0 → m.selected = 0) ∧
    (m.files.length ≠ 0 →
      m.selected < (m.files.length : Int) ∧ m.max ≤ (m.files.length : Int) - 1)

instance (m : Model) : Decidable (viewInv m) := by
  unfold viewInv; infer_instance

/-- The move events of claim C1: one step down or one step up. -/
inductive MoveKey where
  | down
  | up
deriving Repr, DecidableEq

/-- The key press a move event corresponds to. -/
def MoveKey.toKey : MoveKey → Key
  | MoveKey.down => Key.down
  | MoveKey.up => Key.up

/-- Run a sequence of move events through `update`, keeping the model. -/
def applyMoves (m : Model) (ks : List MoveKey) : Model :=
  ks.foldl (fun st k => (update st (Msg.key k.toKey)).1) m

theorem move_step_inv (m : Model) (k : MoveKey) (h : viewInv m)
    (hne : m.files.length ≠ 0) :
    viewInv ((update m (Msg.key k.toKey)).1) ∧
      ((update m (Msg.key k.toKey)).1).files = m.files := by
  obtain ⟨h1, h2, h3, h4, h5⟩ := h
  obtain ⟨h6, h7⟩ := h5 hne
  have hlen : 0 < (m.files.length : Int) := by
    omega
  cases k with
  | down =>
      simp only [MoveKey.toKey, update]
      split_ifs with hc1 hc2 hc3 <;>
        refine ⟨⟨?_, ?_, ?_, fun he => absurd he hne, fun _ => ⟨?_, ?_⟩⟩, rfl⟩ <;>
          dsimp only <;> omega
  | up =>
      simp only [MoveKey.toKey, update]
      split_ifs with hc1 hc2 hc3 <;>
        refine ⟨⟨?_, ?_, ?_, fun he => absurd he hne, fun _ => ⟨?_, ?_⟩⟩, rfl⟩ <;>
          dsimp only <;> omega

/-- A plain-file entry used by concrete states below. -/
def plainFile (n : String) : DirEntry := ⟨n, false, 0, "-rw-r--r--"⟩

/-- A directory entry used by concrete states below. -/
def dirFile (n : String) : DirEntry := ⟨n, true, 0, "drwxr-xr-x"⟩

/-- A browsing state over an empty directory, satisfying the ViewState
invariant (`cursor = 0` as the spec demands for empty entry lists). -/
def mEmpty : Model :=
  ⟨false, "/tmp/empty", [], 0, [], 0, 0, [], [], 10, false⟩

/-- C1: the claim quantifies over every invariant-satisfying state
"including the empty one", but a move-down on an empty entry list runs
`m.selected++` followed by the clamp `m.selected = len(m.files) - 1`
(src/file/file.go:96-98), which is `-1` when the list is empty: the
cursor leaves `[0, len(entries)-1]` and is not `0` on an empty list. -/
theorem down_on_empty_list_breaks_invariant :
    viewInv mEmpty ∧ (applyMoves mEmpty [MoveKey.down]).selected = -1 ∧
      ¬ viewInv (applyMoves mEmpty [MoveKey.down]) := by
  refine ⟨by decide, by decide, ?_⟩
  intro h
  exact absurd (h.2.2.2.1 (by decide)) (by decide)

/-- C1 (amended to non-empty entry lists): starting from any state that
satisfies the ViewState invariant and has a non-empty entry list, every
sequence of move-down/move-up events keeps the invariant — in particular
`min ≤ cursor ≤ max` and `0 ≤ cursor ≤ len(entries) - 1` hold after
every event — and leaves the entry list untouched. -/
theorem moves_preserve_viewInv (m : Model) (h : viewInv m)
    (hne : m.files.length ≠ 0) (ks : List MoveKey) :
    viewInv (applyMoves m ks) ∧ (applyMoves m ks).files = m.files := by
  induction ks generalizing m with
  | nil => exact ⟨h, rfl⟩
  | cons k ks ih =>
      obtain ⟨hstep, hfiles⟩ := move_step_inv m k h hne
      have hne2 : ((update m (Msg.key k.toKey)).1).files.length ≠ 0 := by
        rw [hfiles]; exact hne
      obtain ⟨ha, hb⟩ := ih _ hstep hne2
      exact ⟨ha, by simpa [applyMoves, hfiles] using hb⟩

/-- A two-entry browsing state with a one-line viewport, satisfying the
ViewState invariant. -/
def mW1 : Model :=
  ⟨false, "/tmp/two", [plainFile "a", plainFile "b"], 0, [], 0, 0, [], [], 1, false⟩

theorem moves_preserve_viewInv_witness :
    viewInv mW1 ∧ mW1.files.length ≠ 0 ∧
      viewInv (applyMoves mW1 [MoveKey.down, MoveKey.down, MoveKey.up]) :=
  ⟨by decide, by decide,
    (moves_preserve_viewInv mW1 (by decide) (by decide)
      [MoveKey.down, MoveKey.down, MoveKey.up]).1⟩

/-- C3 (amended): a resize event carrying height `h` sets the stored
height to `h - marginBottom` when `autoHeight` is on (otherwise keeps
it), sets `max` to that height — not to `min + h - 1`, and with no
clamping to the entry range — and leaves `min`, `cursor`, the entries,
the stacks and the path unchanged. -/
theorem resize_sets_max_to_height (m : Model) (h : Int) :
    ((update m (Msg.windowSize h)).1).max
        = (if m.autoHeight then h - marginBottom else m.height) ∧
      ((update m (Msg.windowSize h)).1).height
        = (if m.autoHeight then h - marginBottom else m.height) ∧
      ((update m (Msg.windowSize h)).1).min = m.min ∧
      ((update m (Msg.windowSize h)).1).selected = m.selected ∧
      ((update m (Msg.windowSize h)).1).files = m.files ∧
      ((update m (Msg.windowSize h)).1).path = m.path ∧
      (update m (Msg.windowSize h)).2 = none := by
  simp only [update]
  split_ifs <;> simp_all

/-- A browsing state satisfying the ViewState invariant: ten entries,
window `[6, 9]`, cursor `8`, auto-height on. -/
def mC3 : Model :=
  ⟨false, "/tmp/ten", List.replicate 10 (plainFile "f"), 8, [], 6, 9, [], [], 5, true⟩

/-- C3: the claim says a resize to height `8` recomputes `max` from the
unchanged `min = 6` as `min + newHeight - 1`, clamped to the entry
range, and clamps the cursor into the new window; so it entails
`min ≤ max` afterwards.  The code instead runs `m.height = 8 - 5` and
`m.max = m.height` (src/file/file.go:80-84): `max` becomes `3 < min = 6`
and the cursor stays at `8`, outside every window the claim allows. -/
theorem resize_ignores_min_and_cursor :
    viewInv mC3 ∧
      ((update mC3 (Msg.windowSize 8)).1).min = 6 ∧
      ((update mC3 (Msg.windowSize 8)).1).max = 3 ∧
      ((update mC3 (Msg.windowSize 8)).1).selected = 8 ∧
      ¬ ((update mC3 (Msg.windowSize 8)).1).min
          ≤ ((update mC3 (Msg.windowSize 8)).1).max := by
  refine ⟨?_, by decide, by decide, by decide, by decide⟩
  refine ⟨by decide, by decide, by decide, fun he => absurd he (by decide),
    fun _ => ⟨by decide, by decide⟩⟩

/-- C4 (amended): jump-to-top (`g`) always yields `cursor = 0`, `min = 0`
and `max = height - 1`, with no clamping of `max` to `len(entries) - 1`
when the entry list is shorter than the viewport. -/
theorem jump_top_behavior (m : Model) :
    ((update m (Msg.key Key.g)).1).selected = 0 ∧
      ((update m (Msg.key Key.g)).1).min = 0 ∧
      ((update m (Msg.key Key.g)).1).max = m.height - 1 ∧
      ((update m (Msg.key Key.g)).1).files = m.files := by
  simp [update]

/-- A single-entry browsing state with viewport height `5`. -/
def mC4 : Model :=
  ⟨false, "/tmp/one", [plainFile "only"], 0, [], 0, 0, [], [], 5, false⟩

/-- C4: with `N = 1` entry and height `H = 5`, the claim says `g` clamps
`max` to `N - 1 = 0`; the code sets `m.max = m.height - 1 = 4` with no
clamp (src/file/file.go:87-90). -/
theorem jump_top_does_not_clamp :
    (mC4.files.length : Int) - 1 = 0 ∧ mC4.height = 5 ∧
      ((update mC4 (Msg.key Key.g)).1).max = 4 := by decide

/-- C9: a load-completion message replaces `entries` with the delivered
list (`m.files = msg`, src/file/file.go:78-79) and changes nothing else:
cursor, window bounds, all three history stacks, the path, the height
and the quitting flag are untouched, and no command is issued. -/
theorem load_replaces_entries_only (m : Model) (es : List DirEntry) :
    ((update m (Msg.readDirMsg es)).1).files = es ∧
      ((update m (Msg.readDirMsg es)).1).selected = m.selected ∧
      ((update m (Msg.readDirMsg es)).1).min = m.min ∧
      ((update m (Msg.readDirMsg es)).1).max = m.max ∧
      ((update m (Msg.readDirMsg es)).1).selectedStack = m.selectedStack ∧
      ((update m (Msg.readDirMsg es)).1).minStack = m.minStack ∧
      ((update m (Msg.readDirMsg es)).1).maxStack = m.maxStack ∧
      ((update m (Msg.readDirMsg es)).1).path = m.path ∧
      ((update m (Msg.readDirMsg es)).1).height = m.height ∧
      ((update m (Msg.readDirMsg es)).1).autoHeight = m.autoHeight ∧
      ((update m (Msg.readDirMsg es)).1).quitting = m.quitting ∧
      (update m (Msg.readDirMsg es)).2 = none := by
  simp [update]

/-- C6: jump-to-bottom (`G`) on a state with `N` entries and viewport
height `H` such that `N > H` yields `cursor = N - 1`, `max = N - 1` and
`min = N - H` (src/file/file.go:91-94). -/
theorem jump_bottom_behavior (m : Model)
    (h : (m.files.length : Int) > m.height) :
    ((update m (Msg.key Key.shiftG)).1).selected = (m.files.length : Int) - 1 ∧
      ((update m (Msg.key Key.shiftG)).1).max = (m.files.length : Int) - 1 ∧
      ((update m (Msg.key Key.shiftG)).1).min
        = (m.files.length : Int) - m.height := by
  simp [update]

/-- A three-entry browsing state with viewport height `2`. -/
def mW6 : Model :=
  ⟨false, "/tmp/three", [plainFile "a", plainFile "b", plainFile "c"],
    0, [], 0, 1, [], [], 2, false⟩

theorem jump_bottom_behavior_witness :
    (mW6.files.length : Int) > mW6.height ∧
      ((update mW6 (Msg.key Key.shiftG)).1).selected = 2 ∧
      ((update mW6 (Msg.key Key.shiftG)).1).max = 2 ∧
      ((update mW6 (Msg.key Key.shiftG)).1).min = 1 :=
  ⟨by decide, jump_bottom_behavior mW6 (by decide)⟩

/-- C2: when the cursor rests on a directory entry, a descend
(src/file/file.go:139-144) pushes `(cursor, min, max)` onto the three
history stacks and an immediately following ascend
(src/file/file.go:117-126) pops them back: the triple is restored
exactly, whether or not the child directory's load completion arrives in
between (it only replaces `files`). -/
theorem descend_then_ascend_restores_view (m : Model)
    (hne : m.files.length ≠ 0) (hdir : (entryAt m).isDir = true) :
    (((update (update m (Msg.key Key.right)).1 (Msg.key Key.back)).1).selected
          = m.selected ∧
        ((update (update m (Msg.key Key.right)).1 (Msg.key Key.back)).1).min
          = m.min ∧
        ((update (update m (Msg.key Key.right)).1 (Msg.key Key.back)).1).max
          = m.max) ∧
      ∀ es : List DirEntry,
        (((update (update (update m (Msg.key Key.right)).1 (Msg.readDirMsg es)).1
                (Msg.key Key.back)).1).selected = m.selected ∧
          ((update (update (update m (Msg.key Key.right)).1 (Msg.readDirMsg es)).1
                (Msg.key Key.back)).1).min = m.min ∧
          ((update (update (update m (Msg.key Key.right)).1 (Msg.readDirMsg es)).1
                (Msg.key Key.back)).1).max = m.max) := by
  have hd : ¬ (entryAt m).isDir = false := by simp [hdir]
  constructor
  · simp [update, openEntry, hne, hd]
  · intro es
    simp [update, openEntry, hne, hd]

/-- A browsing state whose cursor rests on a directory entry. -/
def mW2 : Model :=
  ⟨false, "/home/u", [dirFile "docs", plainFile "x"], 0, [], 0, 3, [], [], 4, false⟩

theorem descend_then_ascend_restores_view_witness :
    mW2.files.length ≠ 0 ∧ (entryAt mW2).isDir = true ∧
      ((update (update mW2 (Msg.key Key.right)).1 (Msg.key Key.back)).1).selected
        = mW2.selected :=
  ⟨by decide, by decide,
    (descend_then_ascend_restores_view mW2 (by decide) (by decide)).1.1⟩

/-- A browsing state whose cursor rests on a directory entry `"a"`. -/
def mC5 : Model :=
  ⟨false, "/p", [dirFile "a"], 0, [], 0, 0, [], [], 1, false⟩

/-- C5: the claim says confirm (`enter`) on a directory entry is a no-op.
In the code the `"l", "right", "enter"` case only special-cases `enter`
for non-directories (src/file/file.go:131-137); on a directory it falls
through to the descend code (src/file/file.go:139-144): the state
changes (a view is pushed, the path moves into the directory) and a read
of the child directory is issued. -/
theorem enter_on_directory_descends :
    (entryAt mC5).isDir = true ∧
      (update mC5 (Msg.key Key.enter)).1 ≠ mC5 ∧
      ((update mC5 (Msg.key Key.enter)).1).selectedStack = [0] ∧
      ((update mC5 (Msg.key Key.enter)).1).path = "/p/a" ∧
      (update mC5 (Msg.key Key.enter)).2 = some (Cmd.readDir "/p/a") := by
  decide

/-- C5 (amended): confirm (`enter`) on a directory entry is not a no-op —
it performs exactly the same descend as the descend keys and never
terminates the session (the quitting flag is untouched and the issued
command is a directory read, not quit, so a directory is never the
terminal selected result); a descend key (`l`/`right`) on a
non-directory entry is silently ignored with no state change. -/
theorem enter_dir_descends_and_descend_on_file_ignored (m : Model)
    (hne : m.files.length ≠ 0) :
    ((entryAt m).isDir = true →
        update m (Msg.key Key.enter) = update m (Msg.key Key.right) ∧
          ((update m (Msg.key Key.enter)).1).quitting = m.quitting ∧
          (update m (Msg.key Key.enter)).2 ≠ some Cmd.quit) ∧
      ((entryAt m).isDir = false →
        update m (Msg.key Key.right) = (m, none)) := by
  constructor
  · intro hdir
    have hd : ¬ (entryAt m).isDir = false := by simp [hdir]
    refine ⟨?_, ?_, ?_⟩ <;> simp [update, openEntry, hne, hd]
  · intro hfile
    simp [update, openEntry, hne, hfile]

theorem enter_dir_descends_witness :
    mC5.files.length ≠ 0 ∧
      (update mC5 (Msg.key Key.enter) = update mC5 (Msg.key Key.right) ∧
        ((update mC5 (Msg.key Key.enter)).1).quitting = mC5.quitting ∧
        (update mC5 (Msg.key Key.enter)).2 ≠ some Cmd.quit) :=
  ⟨by decide,
    (enter_dir_descends_and_descend_on_file_ignored mC5 (by decide)).1 (by decide)⟩

/-- C7: confirm (`enter`) with the cursor on a plain (non-directory)
entry terminates the session: the quitting flag is set, the recorded
result path is `currentPath` joined with the entry's name
(src/file/file.go:131-137), everything else is unchanged and `tea.Quit`
is issued. -/
theorem confirm_file_selects (m : Model) (hne : m.files.length ≠ 0)
    (hfile : (entryAt m).isDir = false) :
    ((update m (Msg.key Key.enter)).1).quitting = true ∧
      ((update m (Msg.key Key.enter)).1).path = joinPath m.path (entryAt m).name ∧
      ((update m (Msg.key Key.enter)).1).files = m.files ∧
      ((update m (Msg.key Key.enter)).1).selected = m.selected ∧
      (update m (Msg.key Key.enter)).2 = some Cmd.quit := by
  simp [update, openEntry, hne, hfile]

/-- The browsing state of the claim's example: `currentPath` is
`"/home/u/docs"` and the cursor rests on the plain file `"report.txt"`. -/
def mC7 : Model :=
  ⟨false, "/home/u/docs", [plainFile "report.txt"], 0, [], 0, 0, [], [], 1, false⟩

theorem confirm_file_selects_witness :
    mC7.files.length ≠ 0 ∧ (entryAt mC7).isDir = false ∧
      ((update mC7 (Msg.key Key.enter)).1).quitting = true ∧
      ((update mC7 (Msg.key Key.enter)).1).path = "/home/u/docs/report.txt" := by
  have h := confirm_file_selects mC7 (by decide) (by decide)
  exact ⟨by decide, by decide, h.1, by rw [h.2.1]; decide⟩

/-- The comparator passed to `sort.Slice` in `readDir`
(src/file/file.go:62-67): with equal directory flags compare names,
otherwise directories come first. -/
def dirEntryLess (a b : DirEntry) : Bool :=
  if a.isDir = b.isDir then decide (a.name < b.name) else a.isDir

/-- The (non-strict, total) order `sort.Slice` establishes: `a` may come
before `b` exactly when the comparator does not put `b` strictly before
`a`. -/
def entryOrder (a b : DirEntry) : Prop := dirEntryLess b a = false

instance decEntryOrder : DecidableRel entryOrder := fun a b =>
  instDecidableEqBool (dirEntryLess b a) false

instance totalEntryOrder : IsTotal DirEntry entryOrder where
  total a b := by
    unfold entryOrder dirEntryLess
    by_cases h : a.isDir = b.isDir
    · rcases le_total a.name b.name with h1 | h1
      · exact Or.inl (by simp [h, not_lt.mpr h1])
      · exact Or.inr (by simp [h.symm, not_lt.mpr h1])
    · cases ha : a.isDir <;> cases hb : b.isDir <;> simp_all

instance transEntryOrder : IsTrans DirEntry entryOrder where
  trans a b c hab hbc := by
    unfold entryOrder dirEntryLess at hab hbc ⊢
    by_cases h1 : b.isDir = a.isDir
    · rw [if_pos h1, decide_eq_false_iff_not, not_lt] at hab
      by_cases h2 : c.isDir = b.isDir
      · rw [if_pos h2, decide_eq_false_iff_not, not_lt] at hbc
        rw [if_pos (h2.trans h1), decide_eq_false_iff_not, not_lt]
        exact le_trans hab hbc
      · rw [if_neg h2] at hbc
        rw [if_neg (fun h => h2 (h.trans h1.symm))]
        exact hbc
    · rw [if_neg h1] at hab
      have ha : a.isDir = true := by
        cases hx : a.isDir
        · exact absurd (hab.trans hx.symm) h1
        · rfl
      by_cases h2 : c.isDir = b.isDir
      · have hcf : c.isDir = false := h2.trans hab
        rw [if_neg (by rw [hcf, ha]; exact Bool.false_ne_true)]
        exact hcf
      · rw [if_neg h2] at hbc
        rw [if_neg (by rw [hbc, ha]; exact Bool.false_ne_true)]
        exact hbc

/-- The ordering `readDir` delivers (src/file/file.go:56-70): Go's
`sort.Slice` (standard library, outside this repository) is modelled as
insertion sort over the same comparator; any sort w.r.t. `dirEntryLess`
yields a list pairwise ordered by `entryOrder`. -/
def sortEntries (l : List DirEntry) : List DirEntry :=
  List.insertionSort entryOrder l

/-- C8: the entry list delivered by the loader is ordered with every
directory before every non-directory, and inside each of the two groups
names ascend lexicographically: any two entries in order of appearance
satisfy "directory before non-directory, or same kind and names in
non-decreasing lexicographic order". -/
theorem sortEntries_dirs_first_then_lex (l : List DirEntry) :
    (sortEntries l).Pairwise (fun a b =>
      (a.isDir = true ∧ b.isDir = false) ∨
        (a.isDir = b.isDir ∧ a.name ≤ b.name)) := by
  have h := List.sorted_insertionSort entryOrder l
  refine List.Pairwise.imp ?_ h
  intro a b hab
  unfold entryOrder dirEntryLess at hab
  cases ha : a.isDir <;> cases hb : b.isDir <;> simp_all

/-- `strings.ReplaceAll(seg, "\r", "")` applied to each produced segment
(src/unnamed/part_000:24 and 35): drop every carriage return. -/
def stripCR (l : List Char) : List Char := l.filter (fun c => ¬ c = '\r')

/-- The `i > 0 && s[i-1] != '\\'` test of src/unnamed/part_000:29, with
the previous character carried along (`none` at the first position). -/
def prevNotBackslash : Option Char → Bool
  | some p => p ≠ '\\'
  | none => false

/-- The loop of `splitAtDelimiter` (src/unnamed/part_000:22-33) plus the
final `append` (line 35): walk the characters, cutting a CR-stripped
segment at each delimiter found outside a quoted region, toggling
`inString` at quote characters (a closing quote only counts after a
non-backslash character). -/
def splitAux (d : Char) : List Char → List Char → Bool → Option Char → List (List Char)
  | [], cur, _, _ => [stripCR cur.reverse]
  | c :: rest, cur, inString, prev =>
      if c = d ∧ inString = false then
        stripCR cur.reverse :: splitAux d rest [] inString (some c)
      else if c = '"' then
        if inString = false then
          splitAux d rest (c :: cur) true (some c)
        else if prevNotBackslash prev then
          splitAux d rest (c :: cur) false (some c)
        else
          splitAux d rest (c :: cur) inString (some c)
      else
        splitAux d rest (c :: cur) inString (some c)

/-- `splitAtDelimiter(s, delim)` (src/unnamed/part_000:17-36) for a
single-character delimiter, over the characters of `s`. -/
def splitAtDelimiter (s : List Char) (d : Char) : List (List Char) :=
  splitAux d s [] false none

/-- `strings.Join(parts, delim)` for a single-character delimiter: the
inverse direction of the claim. -/
def joinWith (d : Char) : List (List Char) → List Char
  | [] => []
  | [x] => x
  | x :: xs => x ++ d :: joinWith d xs

theorem splitAux_ne_nil (d : Char) (s : List Char) (cur : List Char)
    (b : Bool) (p : Option Char) : splitAux d s cur b p ≠ [] := by
  induction s generalizing cur b p with
  | nil => simp [splitAux]
  | cons c rest ih =>
      rw [splitAux]
      split_ifs <;> simp [ih]

theorem joinWith_cons (d : Char) (a : List Char) (l : List (List Char))
    (h : l ≠ []) : joinWith d (a :: l) = a ++ d :: joinWith d l := by
  cases l with
  | nil => exact absurd rfl h
  | cons b bs => rfl

theorem joinWith_splitAux (d : Char) (s : List Char) (cur : List Char)
    (p : Option Char) (hq : ∀ c ∈ s, ¬ c = '"') (hr : ∀ c ∈ s, ¬ c = '\r') :
    joinWith d (splitAux d s cur false p) = stripCR cur.reverse ++ s := by
  induction s generalizing cur p with
  | nil => simp [splitAux, joinWith]
  | cons c rest ih =>
      have hq1 : ¬ c = '"' := hq c (List.mem_cons_self c rest)
      have hr1 : ¬ c = '\r' := hr c (List.mem_cons_self c rest)
      have hq2 : ∀ x ∈ rest, ¬ x = '"' := fun x hx => hq x (List.mem_cons_of_mem c hx)
      have hr2 : ∀ x ∈ rest, ¬ x = '\r' := fun x hx => hr x (List.mem_cons_of_mem c hx)
      rw [splitAux]
      by_cases hd : c = d
      · rw [if_pos ⟨hd, rfl⟩,
          joinWith_cons d _ _ (splitAux_ne_nil d rest [] false (some c)),
          ih [] (some c) hq2 hr2]
        simp [stripCR, hd]
      · rw [if_neg (fun hcontra => hd hcontra.1), if_neg hq1,
          ih (c :: cur) (some c) hq2 hr2]
        simp [stripCR, List.filter_append, hr1]

/-- C10: for a string with no double quote and no carriage return, and
any single-character delimiter, `splitAtDelimiter` never returns an
empty list, and joining its result with the delimiter reconstructs the
input exactly. -/
theorem split_join_identity (s : List Char) (d : Char)
    (hq : ∀ c ∈ s, ¬ c = '"') (hr : ∀ c ∈ s, ¬ c = '\r') :
    joinWith d (splitAtDelimiter s d) = s ∧ splitAtDelimiter s d ≠ [] :=
  ⟨by simpa [splitAtDelimiter, stripCR] using joinWith_splitAux d s [] none hq hr,
    splitAux_ne_nil d s [] false none⟩

theorem split_join_identity_witness :
    (∀ c ∈ ['a', ',', 'b'], ¬ c = '"') ∧ (∀ c ∈ ['a', ',', 'b'], ¬ c = '\r') ∧
      joinWith ',' (splitAtDelimiter ['a', ',', 'b'] ',') = ['a', ',', 'b'] ∧
      splitAtDelimiter ['a', ',', 'b'] ',' ≠ [] :=
  ⟨by decide, by decide,
    (split_join_identity ['a', ',', 'b'] ',' (by decide) (by decide)).1,
    (split_join_identity ['a', ',', 'b'] ',' (by decide) (by decide)).2⟩

end Gum
